import Mathlib

/-!
Shallow embedding of the `misc_benches` microbenchmark repository
(`src/util.rs`, `benches/easing.rs`, `benches/lerp.rs`, `benches/normalize.rs`,
`benches/benches.rs`) together with proofs settling the specification claims.

Modelling conventions:
* Rust `f32` arithmetic on the closed-form polynomial paths (`easing.rs`) is
  modelled with exact rational arithmetic `ℚ`; the transcendental paths
  (`lerp.rs`, `normalize.rs`) are modelled over `ℝ` with `Real.sin`,
  `Real.cos`, `Real.sqrt`.
* `usize` is modelled as `ℕ`; slice reads that can panic are modelled with
  `Option` where a claim is about panic freedom.
* The external pseudo-random generator (`rand::StdRng`) is modelled as a
  deterministic raw stream `ℕ → ℕ` plus a position counter; drawing advances
  the position.  This captures exactly what the repository relies on: a pure,
  seed-determined draw sequence.
-/

namespace MiscBenches

/-! ## `src/util.rs`: cache-tier sizing -/

/-- Function `l1_sized_count` from `src/util.rs`: `(16 * 1024) / size_of::<T>()`.
The statically known `size_of::<T>()` is the `size` argument. -/
def l1_sized_count (size : ℕ) : ℕ :=
  (16 * 1024) / size

/-- Function `l2_sized_count` from `src/util.rs`: `(512 * 1024) / size_of::<T>()`. -/
def l2_sized_count (size : ℕ) : ℕ :=
  (512 * 1024) / size

/-! ## `benches/easing.rs`: smoothstep call-shape variants (exact `ℚ` model) -/

/-- Function `internal_smoothstep_noinline` from `benches/easing.rs`:
`(3.0 - (2.0 * t)) * t * t`. -/
def internal_smoothstep_noinline (t : ℚ) : ℚ :=
  (3 - 2 * t) * t * t

/-- Modelled from the spec: `bevy_math`'s `SmoothStep.sample_unchecked` is an
external dependency whose code is not in this repository; the spec states the
functor variant computes the same closed-form smoothstep polynomial
`f(t) = (3 − 2t)·t²`. -/
def SmoothStep_sample_unchecked (t : ℚ) : ℚ :=
  (3 - 2 * t) * t * t

/-- The `EaseFunction` tagged variant used by the benchmark
(`EaseFunction::SmoothStep`). -/
inductive EaseFunction where
  | SmoothStep
deriving DecidableEq

/-- Modelled from the spec: `bevy_math`'s `EaseFunction::sample_unchecked` is an
external dependency whose code is not in this repository; the spec states the
tagged-variant dispatch computes the same closed-form smoothstep polynomial
`f(t) = (3 − 2t)·t²`. -/
def EaseFunction.sample_unchecked : EaseFunction → ℚ → ℚ
  | .SmoothStep, t => (3 - 2 * t) * t * t

/-- Function `smoothstep_explicit` from `benches/easing.rs`: for each
`i in 0..dst_array.len()`, `dst_array[i] = (3.0 - (2.0 * t)) * t * t` with
`t = src_array[i]`.  The destination array only contributes its length. -/
def smoothstep_explicit (dst_array src_array : List ℚ) : List ℚ :=
  (List.range dst_array.length).map fun i =>
    (3 - 2 * src_array.getD i 0) * src_array.getD i 0 * src_array.getD i 0

/-- Function `smoothstep_unit` from `benches/easing.rs`: same loop through the
zero-sized functor `SmoothStep`. -/
def smoothstep_unit (dst_array src_array : List ℚ) : List ℚ :=
  (List.range dst_array.length).map fun i =>
    SmoothStep_sample_unchecked (src_array.getD i 0)

/-- Function `smoothstep_noinline` from `benches/easing.rs`: same loop through the
forced-non-inlined `internal_smoothstep_noinline`. -/
def smoothstep_noinline (dst_array src_array : List ℚ) : List ℚ :=
  (List.range dst_array.length).map fun i =>
    internal_smoothstep_noinline (src_array.getD i 0)

/-- Function `smoothstep_enum` from `benches/easing.rs`: same loop through the tagged
variant `EaseFunction::SmoothStep`. -/
def smoothstep_enum (dst_array src_array : List ℚ) : List ℚ :=
  (List.range dst_array.length).map fun i =>
    EaseFunction.SmoothStep.sample_unchecked (src_array.getD i 0)

/-! ## `benches/easing.rs`: indirect smoothstep group, with panics made
explicit.  A slice read `a[i]` is modelled by `List.get?`; `none` is a panic. -/

/-- One pass of an indirect smoothstep candidate over the listed destination
indices: for each `i`, read `index_array[i]`, then `src_array[index_array[i]]`,
apply `f`.  `none` models an out-of-bounds panic. -/
def indirect_loop (f : ℚ → ℚ) (src_array : List ℚ) (index_array : List ℕ) :
    List ℕ → Option (List ℚ)
  | [] => some []
  | i :: is =>
    match index_array.get? i with
    | none => none
    | some j =>
      match src_array.get? j with
      | none => none
      | some t =>
        match indirect_loop f src_array index_array is with
        | none => none
        | some rest => some (f t :: rest)

/-- Function `smoothstep_indirect_explicit` from `benches/easing.rs`, panic-explicit:
`dst_array[i] = (3.0 - (2.0 * t)) * t * t` with
`t = src_array[index_array[i]]` for `i in 0..dst_len`. -/
def smoothstep_indirect_explicit (dst_len : ℕ) (src_array : List ℚ)
    (index_array : List ℕ) : Option (List ℚ) :=
  indirect_loop (fun t => (3 - 2 * t) * t * t) src_array index_array
    (List.range dst_len)

/-- Function `smoothstep_indirect_unit` from `benches/easing.rs`, panic-explicit. -/
def smoothstep_indirect_unit (dst_len : ℕ) (src_array : List ℚ)
    (index_array : List ℕ) : Option (List ℚ) :=
  indirect_loop SmoothStep_sample_unchecked src_array index_array
    (List.range dst_len)

/-- Function `smoothstep_indirect_noinline` from `benches/easing.rs`, panic-explicit. -/
def smoothstep_indirect_noinline (dst_len : ℕ) (src_array : List ℚ)
    (index_array : List ℕ) : Option (List ℚ) :=
  indirect_loop internal_smoothstep_noinline src_array index_array
    (List.range dst_len)

/-- Function `smoothstep_indirect_enum` from `benches/easing.rs`, panic-explicit. -/
def smoothstep_indirect_enum (dst_len : ℕ) (src_array : List ℚ)
    (index_array : List ℕ) : Option (List ℚ) :=
  indirect_loop EaseFunction.SmoothStep.sample_unchecked src_array index_array
    (List.range dst_len)

/-- The index-array construction in `smoothstep_indirect`
(`benches/easing.rs`): `random_array::<usize>(..)` entries mapped through
`i.rem_euclid(COUNT)`; for `usize` (here `ℕ`) `rem_euclid` is `%`. -/
def mk_index_array (raw : List ℕ) (count : ℕ) : List ℕ :=
  raw.map fun i => i % count

/-- The element count of the `smoothstep_indirect` group:
`const COUNT: usize = 4 * 1024`. -/
def INDIRECT_COUNT : ℕ := 4 * 1024

/-! ## The pseudo-random generator model (`rand::StdRng` is external)

`StdRng` is an external dependency; the repository only relies on it being a
deterministic stream of raw 64-bit draws fixed by the seed.  A generator state
is a raw stream `ℕ → ℕ` (values reduced mod `2^64` where they are consumed)
plus the number of draws already made. -/

/-- A generator state: the raw draw stream and the current draw position. -/
structure RngState where
  stream : ℕ → ℕ
  pos : ℕ

/-- Draw one raw value and advance the state. -/
def RngState.next (s : RngState) : ℕ × RngState :=
  (s.stream s.pos, ⟨s.stream, s.pos + 1⟩)

/-- Modelled from the spec: `StdRng`'s ChaCha-based stream algorithm is an
external dependency; the spec only requires "a single deterministic
pseudo-random stream, initialized from a fixed constant seed".  The stream is
modelled as an arbitrary fixed deterministic function of seed and position. -/
def stdrng_stream (seed : ℕ) (pos : ℕ) : ℕ :=
  Nat.pair seed pos % 2 ^ 64

/-- Constructor `StdRng::seed_from_u64`: a fresh generator fully determined by the seed. -/
def seed_from_u64 (seed : ℕ) : RngState :=
  ⟨stdrng_stream seed, 0⟩

/-- Modelled from the spec: the external `rand` mapping of one raw draw to a
uniform value in `[0, 1)`; the raw value is reduced to 64 bits and scaled. -/
noncomputable def to_unit (n : ℕ) : ℝ :=
  ((n % 2 ^ 64 : ℕ) : ℝ) / 2 ^ 64

/-- Draw `rng.gen_range(lo..hi)`: one raw draw mapped affinely into `[lo, hi)`. -/
noncomputable def gen_range (lo hi : ℝ) (s : RngState) : ℝ × RngState :=
  let (n, s') := s.next
  (lo + to_unit n * (hi - lo), s')

/-- Draw `rng.gen::<bool>()`: a fair coin, modelled as the parity of one raw
draw. -/
def gen_bool (s : RngState) : Bool × RngState :=
  let (n, s') := s.next
  (n % 2 == 1, s')

/-- Function `random_array` (instantiated at raw 64-bit draws) from `src/util.rs` at the raw-draw level:
`Standard.sample_iter(rng).take(count).collect()`. -/
def random_array (s : RngState) : ℕ → List ℕ × RngState
  | 0 => ([], s)
  | n + 1 =>
    let (v, s') := s.next
    let (vs, s'') := random_array s' n
    (v :: vs, s'')

/-! ## `benches/lerp.rs`: quaternion generation (over `ℝ`) -/

/-- A `glam::Quat`, components modelled as reals. -/
structure Quat where
  x : ℝ
  y : ℝ
  z : ℝ
  w : ℝ

/-- Constant `std::f32::consts::TAU`. -/
noncomputable def TAU : ℝ := 2 * Real.pi

/-- Function `random_quat` from `benches/lerp.rs`: draw `r0, r1` in `[0, TAU)` and `r2`
in `[0, 1)`, then emit
`Quat::from_xyzw(t0 * s0, t0 * c0, t1 * s1, t1 * c1)` with
`(s0, c0) = r0.sin_cos()`, `(s1, c1) = r1.sin_cos()`, `t0 = sqrt(1 - r2)`,
`t1 = sqrt(r2)`. -/
noncomputable def random_quat (s : RngState) : Quat × RngState :=
  let (r0, s0st) := gen_range 0 TAU s
  let (r1, s1st) := gen_range 0 TAU s0st
  let (r2, s2st) := gen_range 0 1 s1st
  let s0 := Real.sin r0
  let c0 := Real.cos r0
  let s1 := Real.sin r1
  let c1 := Real.cos r1
  let t0 := Real.sqrt (1 - r2)
  let t1 := Real.sqrt r2
  (⟨t0 * s0, t0 * c0, t1 * s1, t1 * c1⟩, s2st)

/-- Function `random_quat_array` from `benches/lerp.rs`:
`repeat_with(|| random_quat(rng)).take(count).collect()`. -/
noncomputable def random_quat_array (s : RngState) : ℕ → List Quat × RngState
  | 0 => ([], s)
  | n + 1 =>
    let (q, s') := random_quat s
    let (qs, s'') := random_quat_array s' n
    (q :: qs, s'')

/-- The overwrite pass of `random_duplicate_quat_arrays`:
`l.iter_mut().zip(r.iter()).for_each(|(l, &r)| if rng.gen() { *l = r; })`.
The first list is rebuilt with each element replaced by the corresponding
element of the second list when the coin lands `true`. -/
def duplicate_overwrite : List Quat → List Quat → RngState →
    List Quat × RngState
  | [], _, s => ([], s)
  | l, [], s => (l, s)
  | a :: l, b :: r, s =>
    let (coin, s') := gen_bool s
    let (rest, s'') := duplicate_overwrite l r s'
    ((if coin then b else a) :: rest, s'')

/-- Function `random_duplicate_quat_arrays` from `benches/lerp.rs`: generate `l` then
`r`, then per index flip a coin to decide whether to overwrite `l`'s element
with `r`'s; return `[l, r]`. -/
noncomputable def random_duplicate_quat_arrays (s : RngState) (count : ℕ) :
    (List Quat × List Quat) × RngState :=
  let (l, s1) := random_quat_array s count
  let (r, s2) := random_quat_array s1 count
  let (l', s3) := duplicate_overwrite l r s2
  ((l', r), s3)

/-- The overwrite pass as worded by the claim: per index flip a coin to decide
whether to overwrite the SECOND array's element with the first array's
element.  Stated only for comparison with `duplicate_overwrite`, which is the
code's behaviour. -/
def duplicate_overwrite_claimed : List Quat → List Quat → RngState →
    List Quat × RngState
  | [], r, s => (r, s)
  | _, [], s => ([], s)
  | a :: l, b :: r, s =>
    let (coin, s') := gen_bool s
    let (rest, s'') := duplicate_overwrite_claimed l r s'
    ((if coin then a else b) :: rest, s'')

/-- The duplicate-pair generator as worded by the claim: the second array's
element is overwritten with the first's.  Stated only for comparison with
`random_duplicate_quat_arrays`. -/
noncomputable def random_duplicate_quat_arrays_claimed (s : RngState)
    (count : ℕ) : (List Quat × List Quat) × RngState :=
  let (l, s1) := random_quat_array s count
  let (r, s2) := random_quat_array s1 count
  let (r', s3) := duplicate_overwrite_claimed l r s2
  ((l, r'), s3)

/-! ## `benches/normalize.rs`: transforms and renormalization policies -/

/-- A `glam::Vec3`, components modelled as reals. -/
structure Vec3 where
  x : ℝ
  y : ℝ
  z : ℝ

/-- Dot product of a quaternion with itself: `Quat::length_squared`. -/
noncomputable def Quat.length_squared (q : Quat) : ℝ :=
  q.x * q.x + q.y * q.y + q.z * q.z + q.w * q.w

/-- Length `Quat::length`: the Euclidean norm of the 4 components. -/
noncomputable def Quat.length (q : Quat) : ℝ :=
  Real.sqrt q.length_squared

/-- Componentwise scalar multiplication `Quat * f32`. -/
noncomputable def Quat.smul (q : Quat) (c : ℝ) : Quat :=
  ⟨q.x * c, q.y * c, q.z * c, q.w * c⟩

/-- Componentwise scalar division `Quat / f32`. -/
noncomputable def Quat.div_scalar (q : Quat) (c : ℝ) : Quat :=
  ⟨q.x / c, q.y / c, q.z / c, q.w / c⟩

/-- Normalization `Quat::normalize`: the quaternion divided by its length
`sqrt(length_squared)`. -/
noncomputable def Quat.normalize (q : Quat) : Quat :=
  q.div_scalar (Real.sqrt q.length_squared)

/-- The `FastRenormalize` impl from `benches/normalize.rs`:
`self * (0.5 * (3.0 - length_squared))`. -/
noncomputable def Quat.fast_renormalize (q : Quat) : Quat :=
  q.smul (0.5 * (3 - q.length_squared))

/-- Componentwise difference of two quaternions. -/
noncomputable def Quat.sub (q r : Quat) : Quat :=
  ⟨q.x - r.x, q.y - r.y, q.z - r.z, q.w - r.w⟩

/-- Euclidean distance between the 4-component tuples of two quaternions. -/
noncomputable def Quat.dist (q r : Quat) : ℝ :=
  Real.sqrt ((q.sub r).length_squared)

/-- A `bevy_transform` `Transform`, with real-valued components. -/
structure Transform where
  translation : Vec3
  rotation : Quat
  scale : Vec3

/-- Constant `Transform::IDENTITY`. -/
noncomputable def Transform.IDENTITY : Transform :=
  ⟨⟨0, 0, 0⟩, ⟨0, 0, 0, 1⟩, ⟨1, 1, 1⟩⟩

/-- Function `single_normalize_false` from `benches/normalize.rs`:
`dst.rotation = src.rotation`.  The mutated `dst` is returned. -/
noncomputable def single_normalize_false (dst src : Transform) : Transform :=
  { dst with rotation := src.rotation }

/-- Function `single_normalize_true` from `benches/normalize.rs`:
`dst.rotation = src.rotation.normalize()`. -/
noncomputable def single_normalize_true (dst src : Transform) : Transform :=
  { dst with rotation := src.rotation.normalize }

/-- Function `single_normalize_reactive` from `benches/normalize.rs`:
normalize only when `(1.0 - l).abs() > 0.0001` with
`l = src.rotation.length_squared()`. -/
noncomputable def single_normalize_reactive (dst src : Transform) : Transform :=
  let l := src.rotation.length_squared
  if |1 - l| > 0.0001 then
    { dst with rotation := src.rotation.div_scalar (Real.sqrt l) }
  else
    { dst with rotation := src.rotation }

/-- Function `single_normalize_fast` from `benches/normalize.rs`:
`dst.rotation = src.rotation.fast_renormalize()`. -/
noncomputable def single_normalize_fast (dst src : Transform) : Transform :=
  { dst with rotation := src.rotation.fast_renormalize }

/-- Function `single_normalize_inner` from `benches/normalize.rs`: apply the
candidate to each `(dst_array[i], src_array[i])` pair in index order. -/
noncomputable def single_normalize_inner (f : Transform → Transform → Transform)
    (dst_array src_array : List Transform) : List Transform :=
  List.zipWith f dst_array src_array

/-- Function `rotate_axis_normalize_true` from `benches/normalize.rs`.
`Transform::rotate_axis` is external (bevy); its effect on the rotation is the
`rot_axis` argument.  `*dst = src`, rotate, then
`dst.rotation = dst.rotation.normalize()`. -/
noncomputable def rotate_axis_normalize_true
    (rot_axis : Quat → Vec3 → ℝ → Quat) (dst src : Transform) (axis : Vec3)
    (angle : ℝ) : Transform :=
  let d := src
  let d := { d with rotation := rot_axis d.rotation axis angle }
  { d with rotation := d.rotation.normalize }

/-- Function `rotate_axis_normalize_reactive` from `benches/normalize.rs`:
`*dst = src`, rotate, then normalize only when the squared length of the
post-rotation quaternion deviates from 1 by more than `0.0001`. -/
noncomputable def rotate_axis_normalize_reactive
    (rot_axis : Quat → Vec3 → ℝ → Quat) (dst src : Transform) (axis : Vec3)
    (angle : ℝ) : Transform :=
  let d := src
  let d := { d with rotation := rot_axis d.rotation axis angle }
  let l := d.rotation.length_squared
  if |1 - l| > 0.0001 then
    { d with rotation := d.rotation.div_scalar (Real.sqrt l) }
  else
    d

/-! ## `benches/benches.rs`: the environment probe -/

/-- The facts the host can report, as surfaced by the external `sysinfo`
crate: each string/count query is fallible, while `total_memory()` returns a
plain `u64`. -/
structure Host where
  longOsVersion : Option String
  kernelVersion : Option String
  cpuArch : Option String
  cpuBrands : List String
  physicalCoreCount : Option ℕ
  totalMemoryBytes : Option ℕ

/-- Modelled from the spec: `sysinfo::System::total_memory` is external and
infallible (`u64`); when the amount cannot be determined it reports `0`. -/
def Host.total_memory (h : Host) : ℕ :=
  h.totalMemoryBytes.getD 0

/-- Render a count of tenths as a decimal string with one fractional digit,
as `{:.1}` does for the exactly-representable values arising here. -/
def fmt_tenths (n : ℕ) : String :=
  toString (n / 10) ++ "." ++ toString (n % 10)

/-- The number of tenths of a GiB in `bytes` bytes, rounded half to even:
the value printed by `"mem: {:.1} GB"` applied to
`bytes as f64 * (1.0 / (1024.0 * 1024.0 * 1024.0))`. -/
def mem_gib_tenths (bytes : ℕ) : ℕ :=
  let num := bytes * 10
  let den := 2 ^ 30
  let q := num / den
  let r := num % den
  if 2 * r < den then q
  else if den < 2 * r then q + 1
  else if q % 2 = 0 then q
  else q + 1

/-- Function `system` from `benches/benches.rs`: the four printed lines, in
order.  Each fallible field is `unwrap_or`-defaulted to `"not available"`;
the memory line prints the numeric GiB value unconditionally. -/
def system (h : Host) : List String :=
  ["os: " ++ h.longOsVersion.getD "not available" ++ " / " ++
      h.kernelVersion.getD "not available" ++ " / " ++
      h.cpuArch.getD "not available",
    "cpu: " ++ (h.cpuBrands.head?.map String.trim).getD "not available",
    "cores: " ++ (h.physicalCoreCount.map toString).getD "not available",
    "mem: " ++ fmt_tenths (mem_gib_tenths h.total_memory) ++ " GB"]

/-- A host on which no probe succeeds, used as the concrete counterexample
input for the memory field. -/
def host_all_unknown : Host :=
  ⟨none, none, none, [], none, none⟩

/-- A concrete raw-draw stream exercising `random_duplicate_quat_arrays` with
`count = 1`: the first quaternion's three draws (positions 0–2) are all 0, the
second quaternion's draws (positions 3–5) give angles `0`, `π/2` and fraction
`1/2`, and the coin draw (position 6) is odd, i.e. `true`. -/
def cex_stream : ℕ → ℕ :=
  fun n => if n = 4 then 2 ^ 62 else if n = 5 then 2 ^ 63 else if n = 6 then 1 else 0

/-! ## Theorems -/

/-- C4: the cache-tier sizing functions return `floor(capacity / footprint)`
for the fixed tier capacities (16384 bytes for L1, 524288 bytes for L2), and
return 0 whenever the footprint exceeds the tier capacity. -/
theorem claim_C4_sized_count (size : ℕ) :
    l1_sized_count size = 16384 / size ∧
    l2_sized_count size = 524288 / size ∧
    (16384 < size → l1_sized_count size = 0) ∧
    (524288 < size → l2_sized_count size = 0) := by
  refine ⟨by norm_num [l1_sized_count], by norm_num [l2_sized_count], ?_, ?_⟩
  · intro h
    exact Nat.div_eq_of_lt (by omega)
  · intro h
    exact Nat.div_eq_of_lt (by omega)

/-- Witness for C4 at concrete oversized footprints. -/
theorem claim_C4_sized_count_witness :
    l1_sized_count 20000 = 0 ∧ l2_sized_count 600000 = 0 :=
  ⟨(claim_C4_sized_count 20000).2.2.1 (by decide),
    (claim_C4_sized_count 600000).2.2.2 (by decide)⟩

/-- C8: the smoothstep polynomial `f(t) = (3 − 2t)·t²` as implemented
satisfies `f 0 = 0`, `f 1 = 1`, `f (1/2) = 1/2`, and is monotonically
non-decreasing on `[0, 1]`. -/
theorem claim_C8_smoothstep_shape :
    internal_smoothstep_noinline 0 = 0 ∧
    internal_smoothstep_noinline 1 = 1 ∧
    internal_smoothstep_noinline (1 / 2) = 1 / 2 ∧
    ∀ t1 t2 : ℚ, 0 ≤ t1 → t1 ≤ t2 → t2 ≤ 1 →
      internal_smoothstep_noinline t1 ≤ internal_smoothstep_noinline t2 := by
  refine ⟨by norm_num [internal_smoothstep_noinline],
    by norm_num [internal_smoothstep_noinline],
    by norm_num [internal_smoothstep_noinline], ?_⟩
  intro a b ha hab hb1
  have ha1 : a ≤ 1 := le_trans hab hb1
  have hb : (0 : ℚ) ≤ b := le_trans ha hab
  simp only [internal_smoothstep_noinline]
  nlinarith [mul_nonneg (mul_nonneg (sub_nonneg.2 hab) ha) (sub_nonneg.2 ha1),
    mul_nonneg (mul_nonneg (sub_nonneg.2 hab) hb) (sub_nonneg.2 hb1),
    mul_nonneg (mul_nonneg (sub_nonneg.2 hab) ha) (sub_nonneg.2 hb1),
    mul_nonneg (mul_nonneg (sub_nonneg.2 hab) hb) (sub_nonneg.2 ha1)]

/-- Witness for C8's monotonicity part at `t1 = 0`, `t2 = 1`. -/
theorem claim_C8_smoothstep_shape_witness :
    internal_smoothstep_noinline 0 ≤ internal_smoothstep_noinline 1 :=
  claim_C8_smoothstep_shape.2.2.2 0 1 (by norm_num) (by norm_num) (by norm_num)

/-- C3: the four smoothstep call-shape variants return identical results for
the same input array (exact arithmetic model). -/
theorem claim_C3_call_shape_equivalence (dst_array src_array : List ℚ) :
    smoothstep_explicit dst_array src_array = smoothstep_unit dst_array src_array ∧
    smoothstep_explicit dst_array src_array = smoothstep_noinline dst_array src_array ∧
    smoothstep_explicit dst_array src_array = smoothstep_enum dst_array src_array :=
  ⟨rfl, rfl, rfl⟩

/-- C7: two generators seeded with the same value produce bit-identical
batches through `random_array` and `random_quat_array`. -/
theorem claim_C7_seed_determinism (seed1 seed2 count : ℕ) (h : seed1 = seed2) :
    random_array (seed_from_u64 seed1) count =
      random_array (seed_from_u64 seed2) count ∧
    random_quat_array (seed_from_u64 seed1) count =
      random_quat_array (seed_from_u64 seed2) count := by
  subst h
  exact ⟨rfl, rfl⟩

/-- Witness for C7 at the repository's fixed seed 1234. -/
theorem claim_C7_seed_determinism_witness :
    random_array (seed_from_u64 1234) 4096 =
      random_array (seed_from_u64 1234) 4096 ∧
    random_quat_array (seed_from_u64 1234) 4096 =
      random_quat_array (seed_from_u64 1234) 4096 :=
  claim_C7_seed_determinism 1234 1234 4096 rfl

/-- C6 as stated is false: when the total memory cannot be determined the
probe does not print the placeholder for the memory field; it prints the
numeric value `mem: 0.0 GB`. -/
theorem claim_C6_counterexample :
    ¬ ∀ h : Host, h.totalMemoryBytes = none →
        (system h).getD 3 "" = "mem: not available" := by
  intro hcl
  exact absurd (hcl host_all_unknown rfl) (by decide)

/-- C6 amended: each of the five string/count fields prints the placeholder
`"not available"` in its slot when that field alone cannot be determined (the
remaining fields keep their printed values), while the memory field always
prints the numeric GiB value (`mem: 0.0 GB` when undetermined); the probe
always produces its four lines. -/
theorem claim_C6_probe_fields (h : Host) :
    (system h).length = 4 ∧
    (h.longOsVersion = none →
      (system h).getD 0 "" =
        "os: " ++ "not available" ++ " / " ++
          h.kernelVersion.getD "not available" ++ " / " ++
          h.cpuArch.getD "not available") ∧
    (h.kernelVersion = none →
      (system h).getD 0 "" =
        "os: " ++ h.longOsVersion.getD "not available" ++ " / " ++
          "not available" ++ " / " ++
          h.cpuArch.getD "not available") ∧
    (h.cpuArch = none →
      (system h).getD 0 "" =
        "os: " ++ h.longOsVersion.getD "not available" ++ " / " ++
          h.kernelVersion.getD "not available" ++ " / " ++
          "not available") ∧
    (h.cpuBrands = [] → (system h).getD 1 "" = "cpu: not available") ∧
    (h.physicalCoreCount = none → (system h).getD 2 "" = "cores: not available") ∧
    (h.totalMemoryBytes = none → (system h).getD 3 "" = "mem: 0.0 GB") := by
  refine ⟨rfl, ?_, ?_, ?_, ?_, ?_, ?_⟩
  · intro h1
    simp [system, h1]
  · intro h1
    simp [system, h1]
  · intro h1
    simp [system, h1]
  · intro h1
    simp [system, h1]
  · intro h1
    simp [system, h1]
  · intro h1
    simp [system, Host.total_memory, h1]
    decide

/-- Witness for C6's amended claim: a host where only the kernel version is
undetermined (its slot alone shows the placeholder), and a host with no
determinable facts (the memory line shows the numeric value). -/
theorem claim_C6_probe_fields_witness :
    (system ⟨some "X", none, some "arm64", ["cpu0"], some 8, some 0⟩).getD 0 "" =
        "os: " ++ (some "X").getD "not available" ++ " / " ++
          "not available" ++ " / " ++
          (some "arm64").getD "not available" ∧
    (system host_all_unknown).getD 3 "" = "mem: 0.0 GB" :=
  ⟨(claim_C6_probe_fields ⟨some "X", none, some "arm64", ["cpu0"], some 8, some 0⟩).2.2.1
      rfl,
    (claim_C6_probe_fields host_all_unknown).2.2.2.2.2.2 rfl⟩

/-- Elementwise view of `List.zipWith` under `getD`, used for the
`single_normalize_inner` loop. -/
theorem zipWith_getD_eq (f : Transform → Transform → Transform) :
    ∀ (l1 l2 : List Transform) (i : ℕ), i < l1.length → l1.length ≤ l2.length →
      (List.zipWith f l1 l2).getD i Transform.IDENTITY =
        f (l1.getD i Transform.IDENTITY) (l2.getD i Transform.IDENTITY) := by
  intro l1
  induction l1 with
  | nil =>
    intro l2 i h _
    simp at h
  | cons a l ih =>
    intro l2 i h hle
    cases l2 with
    | nil => simp at hle
    | cons b l2' =>
      cases i with
      | zero => simp
      | succ n =>
        simpa using ih l2' n (by simpa using h) (by simpa using hle)

/-- C9: every `single_normalize` candidate writes only the rotation field:
both pointwise and through the `single_normalize_inner` loop, the translation
and scale of each destination transform are unchanged. -/
theorem claim_C9_single_normalize_frame (f : Transform → Transform → Transform)
    (hf : f ∈ [single_normalize_false, single_normalize_true,
      single_normalize_reactive, single_normalize_fast])
    (dst src : Transform) (dst_array src_array : List Transform) (i : ℕ)
    (hi : i < dst_array.length) (hlen : dst_array.length ≤ src_array.length) :
    ((f dst src).translation = dst.translation ∧
      (f dst src).scale = dst.scale) ∧
    (((single_normalize_inner f dst_array src_array).getD i
          Transform.IDENTITY).translation =
        (dst_array.getD i Transform.IDENTITY).translation ∧
      ((single_normalize_inner f dst_array src_array).getD i
          Transform.IDENTITY).scale =
        (dst_array.getD i Transform.IDENTITY).scale) := by
  have hpt : ∀ d s : Transform,
      (f d s).translation = d.translation ∧ (f d s).scale = d.scale := by
    intro d s
    simp only [List.mem_cons, List.not_mem_nil, or_false] at hf
    rcases hf with h1 | h1 | h1 | h1 <;> subst h1
    · exact ⟨rfl, rfl⟩
    · exact ⟨rfl, rfl⟩
    · simp only [single_normalize_reactive]
      split <;> exact ⟨rfl, rfl⟩
    · exact ⟨rfl, rfl⟩
  refine ⟨hpt dst src, ?_⟩
  rw [single_normalize_inner, zipWith_getD_eq f dst_array src_array i hi hlen]
  exact hpt _ _

/-- Witness for C9 with the `true` candidate on singleton arrays. -/
theorem claim_C9_single_normalize_frame_witness :
    (single_normalize_true Transform.IDENTITY Transform.IDENTITY).translation =
        Transform.IDENTITY.translation ∧
      (single_normalize_true Transform.IDENTITY Transform.IDENTITY).scale =
        Transform.IDENTITY.scale :=
  (claim_C9_single_normalize_frame single_normalize_true
    (List.mem_cons_of_mem _ (List.mem_cons_self _ _))
    Transform.IDENTITY Transform.IDENTITY
    [Transform.IDENTITY] [Transform.IDENTITY] 0
    (by simp) (by simp)).1

/-- The indirect loop succeeds when every listed destination index is within
the index array and every index-array entry is within the source array. -/
theorem indirect_loop_isSome (f : ℚ → ℚ) (src_array : List ℚ)
    (index_array : List ℕ) :
    ∀ is : List ℕ, (∀ i ∈ is, i < index_array.length) →
      (∀ j ∈ index_array, j < src_array.length) →
      (indirect_loop f src_array index_array is).isSome := by
  intro is
  induction is with
  | nil =>
    intro _ _
    simp [indirect_loop]
  | cons i is ih =>
    intro h1 h2
    have hi : i < index_array.length := h1 i (List.mem_cons_self _ _)
    have hidx : index_array.get? i = some (index_array.get ⟨i, hi⟩) :=
      List.get?_eq_get hi
    have hjlt : index_array.get ⟨i, hi⟩ < src_array.length :=
      h2 _ (List.get_mem index_array i hi)
    have hsrc : src_array.get? (index_array.get ⟨i, hi⟩) =
        some (src_array.get ⟨_, hjlt⟩) := List.get?_eq_get hjlt
    have hrest := ih (fun a ha => h1 a (List.mem_cons_of_mem _ ha)) h2
    simp only [indirect_loop, hidx, hsrc]
    cases hrec : indirect_loop f src_array index_array is with
    | none => rw [hrec] at hrest; simp at hrest
    | some rest => simp

/-- C10: with the index array reduced `rem_euclid COUNT` (`COUNT = 4096`),
every entry is in bounds and each of the four indirect candidates completes
without a panic on arrays of length `COUNT`. -/
theorem claim_C10_indirect_in_bounds (raw : List ℕ) (src_array dst_array : List ℚ)
    (hdst : dst_array.length = INDIRECT_COUNT)
    (hsrc : src_array.length = INDIRECT_COUNT)
    (hraw : raw.length = INDIRECT_COUNT) :
    (∀ j ∈ mk_index_array raw INDIRECT_COUNT, j < INDIRECT_COUNT) ∧
    (smoothstep_indirect_explicit dst_array.length src_array
      (mk_index_array raw INDIRECT_COUNT)).isSome ∧
    (smoothstep_indirect_unit dst_array.length src_array
      (mk_index_array raw INDIRECT_COUNT)).isSome ∧
    (smoothstep_indirect_noinline dst_array.length src_array
      (mk_index_array raw INDIRECT_COUNT)).isSome ∧
    (smoothstep_indirect_enum dst_array.length src_array
      (mk_index_array raw INDIRECT_COUNT)).isSome := by
  have hcount : (0 : ℕ) < INDIRECT_COUNT := by norm_num [INDIRECT_COUNT]
  have hmem : ∀ j ∈ mk_index_array raw INDIRECT_COUNT, j < INDIRECT_COUNT := by
    intro j hj
    rcases List.mem_map.mp hj with ⟨a, _, rfl⟩
    exact Nat.mod_lt a hcount
  have hilen : (mk_index_array raw INDIRECT_COUNT).length = INDIRECT_COUNT := by
    simp [mk_index_array, hraw]
  have hdom : ∀ i ∈ List.range dst_array.length,
      i < (mk_index_array raw INDIRECT_COUNT).length := by
    intro i hmemi
    rw [hilen, ← hdst]
    exact List.mem_range.mp hmemi
  have hcod : ∀ j ∈ mk_index_array raw INDIRECT_COUNT, j < src_array.length := by
    intro j hj
    rw [hsrc]
    exact hmem j hj
  exact ⟨hmem,
    indirect_loop_isSome _ _ _ _ hdom hcod,
    indirect_loop_isSome _ _ _ _ hdom hcod,
    indirect_loop_isSome _ _ _ _ hdom hcod,
    indirect_loop_isSome _ _ _ _ hdom hcod⟩

/-- The unit draw is nonnegative. -/
theorem to_unit_nonneg (n : ℕ) : 0 ≤ to_unit n := by
  unfold to_unit
  positivity

/-- The unit draw is below 1. -/
theorem to_unit_lt_one (n : ℕ) : to_unit n < 1 := by
  unfold to_unit
  rw [div_lt_one (by positivity)]
  exact_mod_cast Nat.mod_lt n (by positivity)

/-- Closed form of one `random_quat` draw from an explicit stream state:
its components and the advanced generator state. -/
theorem random_quat_eval (st : ℕ → ℕ) (p : ℕ) :
    random_quat ⟨st, p⟩ =
      (⟨Real.sqrt (1 - to_unit (st (p + 2))) * Real.sin (to_unit (st p) * TAU),
        Real.sqrt (1 - to_unit (st (p + 2))) * Real.cos (to_unit (st p) * TAU),
        Real.sqrt (to_unit (st (p + 2))) * Real.sin (to_unit (st (p + 1)) * TAU),
        Real.sqrt (to_unit (st (p + 2))) * Real.cos (to_unit (st (p + 1)) * TAU)⟩,
        ⟨st, p + 3⟩) := by
  simp only [random_quat, gen_range, RngState.next, zero_add, sub_zero, mul_one]

/-- C2: every quaternion produced by the spherical-uniform sampling formula
has Euclidean norm 1 (hence within tolerance `1e-5`), with no explicit
renormalization step in the formula. -/
theorem claim_C2_random_quat_unit_norm (s : RngState) :
    |(random_quat s).1.length - 1| ≤ 1e-5 := by
  obtain ⟨st, p⟩ := s
  have hu0 : 0 ≤ to_unit (st (p + 2)) := to_unit_nonneg _
  have hu1 : to_unit (st (p + 2)) ≤ 1 := le_of_lt (to_unit_lt_one _)
  have hlsq : (random_quat ⟨st, p⟩).1.length_squared = 1 := by
    rw [random_quat_eval]
    simp only [Quat.length_squared]
    have hs0 := Real.sin_sq_add_cos_sq (to_unit (st p) * TAU)
    have hs1 := Real.sin_sq_add_cos_sq (to_unit (st (p + 1)) * TAU)
    have ht0 : Real.sqrt (1 - to_unit (st (p + 2))) ^ 2 =
        1 - to_unit (st (p + 2)) := Real.sq_sqrt (by linarith)
    have ht1 : Real.sqrt (to_unit (st (p + 2))) ^ 2 =
        to_unit (st (p + 2)) := Real.sq_sqrt hu0
    nlinarith [hs0, hs1, ht0, ht1]
  rw [Quat.length, hlsq, Real.sqrt_one]
  norm_num

/-- When the squared length is within `1e-4` of 1, true normalization moves a
quaternion by at most `1e-4` in Euclidean distance. -/
theorem dist_normalize_self (q : Quat)
    (h : |1 - q.length_squared| ≤ 0.0001) :
    Quat.dist q.normalize q ≤ 0.0001 := by
  obtain ⟨x, y, z, w⟩ := q
  have hl0 : (0 : ℝ) ≤ x * x + y * y + z * z + w * w :=
    add_nonneg (add_nonneg (add_nonneg (mul_self_nonneg x) (mul_self_nonneg y))
      (mul_self_nonneg z)) (mul_self_nonneg w)
  have hb := abs_le.mp h
  simp only [Quat.length_squared] at hb
  have hs0 : 0 ≤ Real.sqrt (x * x + y * y + z * z + w * w) :=
    Real.sqrt_nonneg _
  have hs2 : Real.sqrt (x * x + y * y + z * z + w * w) ^ 2 =
      x * x + y * y + z * z + w * w := Real.sq_sqrt hl0
  set s := Real.sqrt (x * x + y * y + z * z + w * w) with hsdef
  have hslb : (1 : ℝ) - 0.0001 ≤ s := by nlinarith
  have hsub : s ≤ 1 + 0.0001 := by nlinarith
  have hspos : (0 : ℝ) < s := by nlinarith
  have hsne : s ≠ 0 := ne_of_gt hspos
  have hcalc : Quat.dist (Quat.normalize ⟨x, y, z, w⟩) ⟨x, y, z, w⟩ =
      |1 - s| := by
    simp only [Quat.dist, Quat.normalize, Quat.sub, Quat.div_scalar,
      Quat.length_squared, ← hsdef]
    have hkey : (x / s - x) * (x / s - x) + (y / s - y) * (y / s - y) +
        (z / s - z) * (z / s - z) + (w / s - w) * (w / s - w) =
        (1 - s) ^ 2 := by
      field_simp
      linear_combination (-(1 - s) ^ 2) * hs2
    rw [hkey, Real.sqrt_sq_eq_abs]
  rw [hcalc]
  exact abs_le.mpr ⟨by nlinarith, by nlinarith⟩

/-- C5: on inputs whose post-rotation quaternion has squared length within
`1e-4` of 1, the "always renormalize" and "reactive renormalize" candidates
(both for the axis-rotation family and for the single-normalize family)
produce rotations within Euclidean distance `1e-4` of each other. -/
theorem claim_C5_reactive_matches_true :
    (∀ (rot_axis : Quat → Vec3 → ℝ → Quat) (dst dst' src : Transform)
        (axis : Vec3) (angle : ℝ),
      |1 - (rot_axis src.rotation axis angle).length_squared| ≤ 0.0001 →
      Quat.dist
          (rotate_axis_normalize_true rot_axis dst src axis angle).rotation
          (rotate_axis_normalize_reactive rot_axis dst' src axis angle).rotation
        ≤ 0.0001) ∧
    (∀ dst dst' src : Transform,
      |1 - src.rotation.length_squared| ≤ 0.0001 →
      Quat.dist (single_normalize_true dst src).rotation
          (single_normalize_reactive dst' src).rotation ≤ 0.0001) := by
  constructor
  · intro rot_axis dst dst' src axis angle h
    have hnot : ¬ (0.0001 < |1 - (rot_axis src.rotation axis angle).length_squared|) :=
      not_lt.mpr h
    simp only [rotate_axis_normalize_true, rotate_axis_normalize_reactive]
    rw [if_neg hnot]
    exact dist_normalize_self _ h
  · intro dst dst' src h
    have hnot : ¬ (0.0001 < |1 - src.rotation.length_squared|) := not_lt.mpr h
    simp only [single_normalize_true, single_normalize_reactive]
    rw [if_neg hnot]
    exact dist_normalize_self _ h

/-- Witness for C5: the identity rotation (squared length exactly 1), with a
trivial external rotation step for the axis-rotation family. -/
theorem claim_C5_reactive_matches_true_witness :
    Quat.dist
        (rotate_axis_normalize_true (fun q _ _ => q) Transform.IDENTITY
          Transform.IDENTITY ⟨1, 0, 0⟩ 0).rotation
        (rotate_axis_normalize_reactive (fun q _ _ => q) Transform.IDENTITY
          Transform.IDENTITY ⟨1, 0, 0⟩ 0).rotation ≤ 0.0001 ∧
    Quat.dist (single_normalize_true Transform.IDENTITY Transform.IDENTITY).rotation
        (single_normalize_reactive Transform.IDENTITY Transform.IDENTITY).rotation
      ≤ 0.0001 :=
  ⟨claim_C5_reactive_matches_true.1 (fun q _ _ => q) Transform.IDENTITY
      Transform.IDENTITY Transform.IDENTITY ⟨1, 0, 0⟩ 0
      (by norm_num [Transform.IDENTITY, Quat.length_squared]),
    claim_C5_reactive_matches_true.2 Transform.IDENTITY Transform.IDENTITY
      Transform.IDENTITY
      (by norm_num [Transform.IDENTITY, Quat.length_squared])⟩

/-- Each element of the overwritten first array is either the corresponding
element of the second array or the corresponding originally drawn element. -/
theorem duplicate_overwrite_getD (d : Quat) :
    ∀ (l r : List Quat) (s : RngState) (i : ℕ),
      (duplicate_overwrite l r s).1.getD i d = r.getD i d ∨
      (duplicate_overwrite l r s).1.getD i d = l.getD i d := by
  intro l
  induction l with
  | nil =>
    intro r s i
    right
    simp [duplicate_overwrite]
  | cons a l ih =>
    intro r s i
    cases r with
    | nil =>
      right
      simp [duplicate_overwrite]
    | cons b r' =>
      simp only [duplicate_overwrite]
      cases i with
      | zero =>
        cases hcoin : (gen_bool s).1 with
        | false =>
          right
          simp [hcoin]
        | true =>
          left
          simp [hcoin]
      | succ n =>
        rcases ih r' (gen_bool s).2 n with h | h
        · left
          simpa using h
        · right
          simpa using h

/-- C1 (amended): the duplicate-pair generator returns the second generated
batch unchanged as the right array, and each left-array element is either
exactly the corresponding right-array element (the coin landed `true` and the
first array's element was overwritten with the second's) or the corresponding
independently drawn element of the first generated batch. -/
theorem claim_C1_duplicate_pair (s : RngState) (count i : ℕ)
    (hi : i < count) :
    (random_duplicate_quat_arrays s count).1.2 =
      (random_quat_array (random_quat_array s count).2 count).1 ∧
    ((random_duplicate_quat_arrays s count).1.1.getD i ⟨0, 0, 0, 0⟩ =
        (random_quat_array (random_quat_array s count).2 count).1.getD i
          ⟨0, 0, 0, 0⟩ ∨
      (random_duplicate_quat_arrays s count).1.1.getD i ⟨0, 0, 0, 0⟩ =
        (random_quat_array s count).1.getD i ⟨0, 0, 0, 0⟩) := by
  refine ⟨rfl, ?_⟩
  exact duplicate_overwrite_getD ⟨0, 0, 0, 0⟩ _ _ _ i

/-- Witness for C1's amended claim at the repository's seed. -/
theorem claim_C1_duplicate_pair_witness :
    (random_duplicate_quat_arrays (seed_from_u64 1234) 1).1.2 =
      (random_quat_array (random_quat_array (seed_from_u64 1234) 1).2 1).1 ∧
    ((random_duplicate_quat_arrays (seed_from_u64 1234) 1).1.1.getD 0 ⟨0, 0, 0, 0⟩ =
        (random_quat_array (random_quat_array (seed_from_u64 1234) 1).2 1).1.getD 0
          ⟨0, 0, 0, 0⟩ ∨
      (random_duplicate_quat_arrays (seed_from_u64 1234) 1).1.1.getD 0 ⟨0, 0, 0, 0⟩ =
        (random_quat_array (seed_from_u64 1234) 1).1.getD 0 ⟨0, 0, 0, 0⟩) :=
  claim_C1_duplicate_pair (seed_from_u64 1234) 1 0 (by decide)

/-- Evaluation of the unit draw at 0. -/
theorem to_unit_zero : to_unit 0 = 0 := by
  unfold to_unit
  norm_num

/-- Evaluation of the unit draw at `2^62`. -/
theorem to_unit_pow62 : to_unit (2 ^ 62) = 1 / 4 := by
  unfold to_unit
  rw [Nat.mod_eq_of_lt (by norm_num)]
  norm_num

/-- Evaluation of the unit draw at `2^63`. -/
theorem to_unit_pow63 : to_unit (2 ^ 63) = 1 / 2 := by
  unfold to_unit
  rw [Nat.mod_eq_of_lt (by norm_num)]
  norm_num

/-- The third component of the first quaternion drawn from the
counterexample stream is 0. -/
theorem cex_first_z : ((random_quat ⟨cex_stream, 0⟩).1).z = 0 := by
  rw [random_quat_eval]
  have h2 : cex_stream 2 = 0 := rfl
  simp [h2, to_unit_zero]

/-- The third component of the second quaternion drawn from the
counterexample stream is `sqrt (1/2)`. -/
theorem cex_second_z :
    ((random_quat ⟨cex_stream, 3⟩).1).z = Real.sqrt (1 / 2) := by
  rw [random_quat_eval]
  have h4 : cex_stream 4 = 2 ^ 62 := rfl
  have h5 : cex_stream 5 = 2 ^ 63 := rfl
  simp only [h4, h5, to_unit_pow62, to_unit_pow63]
  have harg : (1 / 4 : ℝ) * TAU = Real.pi / 2 := by
    rw [TAU]
    ring
  rw [harg, Real.sin_pi_div_two, mul_one]

/-- C1 as stated is false: the code overwrites the FIRST array's element with
the second's, not the second's with the first's.  On the concrete stream
`cex_stream` with `count = 1` the two mechanisms produce different array
pairs. -/
theorem claim_C1_counterexample :
    random_duplicate_quat_arrays ⟨cex_stream, 0⟩ 1 ≠
      random_duplicate_quat_arrays_claimed ⟨cex_stream, 0⟩ 1 := by
  intro heq
  have hz := congrArg (fun out => (out.1.1.getD 0 ⟨0, 0, 0, 0⟩).z) heq
  have hcode : (random_duplicate_quat_arrays ⟨cex_stream, 0⟩ 1).1.1 =
      [(random_quat ⟨cex_stream, 3⟩).1] := rfl
  have hclaim : (random_duplicate_quat_arrays_claimed ⟨cex_stream, 0⟩ 1).1.1 =
      [(random_quat ⟨cex_stream, 0⟩).1] := rfl
  simp only [hcode, hclaim, List.getD_cons_zero] at hz
  rw [cex_first_z, cex_second_z] at hz
  have hpos : (0 : ℝ) < Real.sqrt (1 / 2) := Real.sqrt_pos.mpr (by norm_num)
  linarith

/-- Witness for C10 on concrete length-4096 arrays. -/
theorem claim_C10_indirect_in_bounds_witness :
    (smoothstep_indirect_explicit
      (List.replicate INDIRECT_COUNT (0 : ℚ)).length
      (List.replicate INDIRECT_COUNT (0 : ℚ))
      (mk_index_array (List.replicate INDIRECT_COUNT 0) INDIRECT_COUNT)).isSome :=
  (claim_C10_indirect_in_bounds (List.replicate INDIRECT_COUNT 0)
    (List.replicate INDIRECT_COUNT 0) (List.replicate INDIRECT_COUNT 0)
    (by simp) (by simp) (by simp)).2.1

end MiscBenches
